import Mathlib

/-!
Verification of the go-lexer scanning engine.

Source text is modelled as a list of bytes (`List Nat`, each < 256 in any
real execution).  Runes are modelled as `Int`, matching Go's `rune` type,
so that the EOF sentinel `-1` is representable.  Byte offsets (`pos`,
`start`) are modelled as `Int`, matching Go's `int`, so that underflow
below zero is observable exactly as in the source.
-/

/-- Go constant `EOFRune rune = -1` from lexer.go. -/
def EOFRune : Int := -1

/-- Go constant `utf8.RuneError` (U+FFFD). -/
def RuneError : Int := 0xFFFD

/-- Embedding of Go `utf8.RuneLen`: the byte width of the UTF-8 encoding of
a rune, `-1` for values that are not unicode scalar values. -/
def runeLen (r : Int) : Int :=
  if r < 0 then -1
  else if r ≤ 0x7F then 1
  else if r ≤ 0x7FF then 2
  else if 0xD800 ≤ r ∧ r ≤ 0xDFFF then -1
  else if r ≤ 0xFFFF then 3
  else if r ≤ 0x10FFFF then 4
  else -1

/-- Embedding of Go `utf8.DecodeRuneInString`: decodes the first rune of a
byte sequence, returning the rune and the number of bytes consumed.  On
empty input it returns `(RuneError, 0)`; on input that does not begin with
a well-formed encoding it returns `(RuneError, 1)`.  The branch structure
mirrors Go's `acceptRanges` table: first bytes `0x80..0xC1` and
`0xF5..0xFF` are invalid, `0xE0`/`0xED`/`0xF0`/`0xF4` restrict the second
byte to exclude overlong encodings, surrogates and values above U+10FFFF. -/
def decodeRune (p : List Nat) : Int × Nat :=
  match p with
  | [] => (RuneError, 0)
  | b0 :: rest =>
    if b0 < 0x80 then ((b0 : Int), 1)
    else if b0 < 0xC2 then (RuneError, 1)
    else if b0 < 0xE0 then
      match rest with
      | b1 :: _ =>
        if 0x80 ≤ b1 ∧ b1 ≤ 0xBF then
          (((b0 - 0xC0) * 0x40 + (b1 - 0x80) : Nat), 2)
        else (RuneError, 1)
      | _ => (RuneError, 1)
    else if b0 < 0xF0 then
      match rest with
      | b1 :: b2 :: _ =>
        if (if b0 = 0xE0 then 0xA0 else 0x80) ≤ b1 ∧
           b1 ≤ (if b0 = 0xED then 0x9F else 0xBF) then
          if 0x80 ≤ b2 ∧ b2 ≤ 0xBF then
            (((b0 - 0xE0) * 0x1000 + (b1 - 0x80) * 0x40 + (b2 - 0x80) : Nat), 3)
          else (RuneError, 1)
        else (RuneError, 1)
      | _ => (RuneError, 1)
    else if b0 < 0xF5 then
      match rest with
      | b1 :: b2 :: b3 :: _ =>
        if (if b0 = 0xF0 then 0x90 else 0x80) ≤ b1 ∧
           b1 ≤ (if b0 = 0xF4 then 0x8F else 0xBF) then
          if 0x80 ≤ b2 ∧ b2 ≤ 0xBF then
            if 0x80 ≤ b3 ∧ b3 ≤ 0xBF then
              (((b0 - 0xF0) * 0x40000 + (b1 - 0x80) * 0x1000 +
                (b2 - 0x80) * 0x40 + (b3 - 0x80) : Nat), 4)
            else (RuneError, 1)
          else (RuneError, 1)
        else (RuneError, 1)
      | _ => (RuneError, 1)
    else (RuneError, 1)

/-- A unicode scalar value: in range and not a surrogate. -/
def isScalar (n : Nat) : Prop := n < 0x110000 ∧ (n < 0xD800 ∨ 0xDFFF < n)

instance (n : Nat) : Decidable (isScalar n) := by
  unfold isScalar; infer_instance

/-- The standard UTF-8 encoding of a unicode scalar value. -/
def utf8encode (n : Nat) : List Nat :=
  if n < 0x80 then [n]
  else if n < 0x800 then [0xC0 + n / 0x40, 0x80 + n % 0x40]
  else if n < 0x10000 then
    [0xE0 + n / 0x1000, 0x80 + n / 0x40 % 0x40, 0x80 + n % 0x40]
  else
    [0xF0 + n / 0x40000, 0x80 + n / 0x1000 % 0x40,
     0x80 + n / 0x40 % 0x40, 0x80 + n % 0x40]

/-- Concatenated UTF-8 encoding of a list of scalar values. -/
def encList : List Nat → List Nat
  | [] => []
  | n :: ns => utf8encode n ++ encList ns

/-- A byte sequence begins with the well-formed UTF-8 encoding of some
scalar value. -/
def headEnc (bs : List Nat) : Prop :=
  ∃ n rest, isScalar n ∧ bs = utf8encode n ++ rest

/-- The first byte of any well-formed encoding is below `0xF5`
(so bytes such as `0xFF` never begin a well-formed encoding). -/
lemma utf8encode_head_lt (n : Nat) (hs : isScalar n) :
    ∃ b t, utf8encode n = b :: t ∧ b < 0xF5 := by
  obtain ⟨h1, _⟩ := hs
  unfold utf8encode
  split_ifs with c1 c2 c3
  · exact ⟨n, _, rfl, by omega⟩
  · exact ⟨0xC0 + n / 0x40, _, rfl, by omega⟩
  · exact ⟨0xE0 + n / 0x1000, _, rfl, by omega⟩
  · exact ⟨0xF0 + n / 0x40000, _, rfl, by omega⟩

/-- The encoding of a scalar value is nonempty. -/
lemma utf8encode_length_pos (n : Nat) : 1 ≤ (utf8encode n).length := by
  unfold utf8encode
  split_ifs <;> simp

/-- `utf8.RuneLen` agrees with the length of the encoding on scalar values. -/
lemma runeLen_encode (n : Nat) (hs : isScalar n) :
    runeLen (n : Int) = ((utf8encode n).length : Int) := by
  obtain ⟨h1, h2⟩ := hs
  unfold runeLen utf8encode
  split_ifs <;> (try simp only [List.length_cons, List.length_nil]) <;> push_cast <;> omega

/-- Decoding an encoding yields the encoded scalar value and its width. -/
lemma decode_encode (n : Nat) (hs : isScalar n) (rest : List Nat) :
    decodeRune (utf8encode n ++ rest) = ((n : Int), (utf8encode n).length) := by
  obtain ⟨h1, h2⟩ := hs
  unfold utf8encode
  split_ifs with c1 c2 c3
  · simp only [List.cons_append, List.nil_append]
    rw [decodeRune.eq_def]
    dsimp only
    rw [if_pos c1]
    simp
  · simp only [List.cons_append, List.nil_append]
    rw [decodeRune.eq_def]
    dsimp only
    rw [if_neg (by omega), if_neg (by omega), if_pos (by omega),
      if_pos (by constructor <;> omega)]
    simp only [Prod.mk.injEq, List.length_cons, List.length_nil]
    refine ⟨by push_cast; omega, by simp⟩
  · simp only [List.cons_append, List.nil_append]
    rw [decodeRune.eq_def]
    dsimp only
    rw [if_neg (by omega), if_neg (by omega), if_neg (by omega), if_pos (by omega),
      if_pos (by constructor <;> split_ifs <;> omega),
      if_pos (by constructor <;> omega)]
    simp only [Prod.mk.injEq, List.length_cons, List.length_nil]
    refine ⟨by push_cast; omega, by simp⟩
  · simp only [List.cons_append, List.nil_append]
    rw [decodeRune.eq_def]
    dsimp only
    rw [if_neg (by omega), if_neg (by omega), if_neg (by omega), if_neg (by omega),
      if_pos (by omega),
      if_pos (by constructor <;> split_ifs <;> omega),
      if_pos (by constructor <;> omega),
      if_pos (by constructor <;> omega)]
    simp only [Prod.mk.injEq, List.length_cons, List.length_nil]
    refine ⟨by push_cast; omega, by simp⟩

/-- Every nonempty byte sequence either begins with a well-formed encoding
or decodes to the one-byte `RuneError` marker. -/
lemma decode_classify (bs : List Nat) (h : bs ≠ []) :
    headEnc bs ∨ decodeRune bs = (RuneError, 1) := by
  cases bs with
  | nil => exact absurd rfl h
  | cons b0 rest =>
    by_cases c1 : b0 < 0x80
    · left
      exact ⟨b0, rest, ⟨by omega, by omega⟩, by rw [utf8encode, if_pos c1]; rfl⟩
    by_cases c2 : b0 < 0xC2
    · right
      rw [decodeRune.eq_def]
      dsimp only
      rw [if_neg c1, if_pos c2]
    by_cases c3 : b0 < 0xE0
    · cases rest with
      | nil =>
        right
        rw [decodeRune.eq_def]
        dsimp only
        rw [if_neg c1, if_neg c2, if_pos c3]
      | cons b1 rest2 =>
        by_cases cb : 0x80 ≤ b1 ∧ b1 ≤ 0xBF
        · left
          refine ⟨(b0 - 0xC0) * 0x40 + (b1 - 0x80), rest2, ⟨by omega, by omega⟩, ?_⟩
          rw [utf8encode, if_neg (by omega), if_pos (by omega)]
          have e1 : 0xC0 + ((b0 - 0xC0) * 0x40 + (b1 - 0x80)) / 0x40 = b0 := by omega
          have e2 : 0x80 + ((b0 - 0xC0) * 0x40 + (b1 - 0x80)) % 0x40 = b1 := by omega
          rw [e1, e2]
          rfl
        · right
          rw [decodeRune.eq_def]
          dsimp only
          rw [if_neg c1, if_neg c2, if_pos c3, if_neg cb]
    by_cases c4 : b0 < 0xF0
    · cases rest with
      | nil =>
        right
        rw [decodeRune.eq_def]
        dsimp only
        rw [if_neg c1, if_neg c2, if_neg c3, if_pos c4]
      | cons b1 rest2 =>
        cases rest2 with
        | nil =>
          right
          rw [decodeRune.eq_def]
          dsimp only
          rw [if_neg c1, if_neg c2, if_neg c3, if_pos c4]
        | cons b2 rest3 =>
          by_cases cb : (if b0 = 0xE0 then 0xA0 else 0x80) ≤ b1 ∧
              b1 ≤ (if b0 = 0xED then 0x9F else 0xBF)
          · by_cases cc : 0x80 ≤ b2 ∧ b2 ≤ 0xBF
            · left
              obtain ⟨cbl, cbh⟩ := cb
              have f1 : 0x80 ≤ b1 := by split_ifs at cbl <;> omega
              have f2 : b0 = 0xE0 → 0xA0 ≤ b1 := by
                intro hb
                rwa [if_pos hb] at cbl
              have f3 : b1 ≤ 0xBF := by split_ifs at cbh <;> omega
              have f4 : b0 = 0xED → b1 ≤ 0x9F := by
                intro hb
                rwa [if_pos hb] at cbh
              refine ⟨(b0 - 0xE0) * 0x1000 + (b1 - 0x80) * 0x40 + (b2 - 0x80), rest3,
                ⟨by omega, by omega⟩, ?_⟩
              rw [utf8encode, if_neg (by omega), if_neg (by omega), if_pos (by omega)]
              have e1 : 0xE0 + ((b0 - 0xE0) * 0x1000 + (b1 - 0x80) * 0x40 + (b2 - 0x80))
                  / 0x1000 = b0 := by omega
              have e2 : 0x80 + ((b0 - 0xE0) * 0x1000 + (b1 - 0x80) * 0x40 + (b2 - 0x80))
                  / 0x40 % 0x40 = b1 := by omega
              have e3 : 0x80 + ((b0 - 0xE0) * 0x1000 + (b1 - 0x80) * 0x40 + (b2 - 0x80))
                  % 0x40 = b2 := by omega
              rw [e1, e2, e3]
              rfl
            · right
              rw [decodeRune.eq_def]
              dsimp only
              rw [if_neg c1, if_neg c2, if_neg c3, if_pos c4, if_pos cb, if_neg cc]
          · right
            rw [decodeRune.eq_def]
            dsimp only
            rw [if_neg c1, if_neg c2, if_neg c3, if_pos c4, if_neg cb]
    by_cases c5 : b0 < 0xF5
    · cases rest with
      | nil =>
        right
        rw [decodeRune.eq_def]
        dsimp only
        rw [if_neg c1, if_neg c2, if_neg c3, if_neg c4, if_pos c5]
      | cons b1 rest2 =>
        cases rest2 with
        | nil =>
          right
          rw [decodeRune.eq_def]
          dsimp only
          rw [if_neg c1, if_neg c2, if_neg c3, if_neg c4, if_pos c5]
        | cons b2 rest3 =>
          cases rest3 with
          | nil =>
            right
            rw [decodeRune.eq_def]
            dsimp only
            rw [if_neg c1, if_neg c2, if_neg c3, if_neg c4, if_pos c5]
          | cons b3 rest4 =>
            by_cases cb : (if b0 = 0xF0 then 0x90 else 0x80) ≤ b1 ∧
                b1 ≤ (if b0 = 0xF4 then 0x8F else 0xBF)
            · by_cases cc : 0x80 ≤ b2 ∧ b2 ≤ 0xBF
              · by_cases cd : 0x80 ≤ b3 ∧ b3 ≤ 0xBF
                · left
                  obtain ⟨cbl, cbh⟩ := cb
                  have f1 : 0x80 ≤ b1 := by split_ifs at cbl <;> omega
                  have f2 : b0 = 0xF0 → 0x90 ≤ b1 := by
                    intro hb
                    rwa [if_pos hb] at cbl
                  have f3 : b1 ≤ 0xBF := by split_ifs at cbh <;> omega
                  have f4 : b0 = 0xF4 → b1 ≤ 0x8F := by
                    intro hb
                    rwa [if_pos hb] at cbh
                  refine ⟨(b0 - 0xF0) * 0x40000 + (b1 - 0x80) * 0x1000 + (b2 - 0x80) * 0x40 +
                    (b3 - 0x80), rest4, ⟨by omega, by omega⟩, ?_⟩
                  rw [utf8encode, if_neg (by omega), if_neg (by omega), if_neg (by omega)]
                  have e1 : 0xF0 + ((b0 - 0xF0) * 0x40000 + (b1 - 0x80) * 0x1000 +
                      (b2 - 0x80) * 0x40 + (b3 - 0x80)) / 0x40000 = b0 := by omega
                  have e2 : 0x80 + ((b0 - 0xF0) * 0x40000 + (b1 - 0x80) * 0x1000 +
                      (b2 - 0x80) * 0x40 + (b3 - 0x80)) / 0x1000 % 0x40 = b1 := by omega
                  have e3 : 0x80 + ((b0 - 0xF0) * 0x40000 + (b1 - 0x80) * 0x1000 +
                      (b2 - 0x80) * 0x40 + (b3 - 0x80)) / 0x40 % 0x40 = b2 := by omega
                  have e4 : 0x80 + ((b0 - 0xF0) * 0x40000 + (b1 - 0x80) * 0x1000 +
                      (b2 - 0x80) * 0x40 + (b3 - 0x80)) % 0x40 = b3 := by omega
                  rw [e1, e2, e3, e4]
                  rfl
                · right
                  rw [decodeRune.eq_def]
                  dsimp only
                  rw [if_neg c1, if_neg c2, if_neg c3, if_neg c4, if_pos c5,
                    if_pos cb, if_pos cc, if_neg cd]
              · right
                rw [decodeRune.eq_def]
                dsimp only
                rw [if_neg c1, if_neg c2, if_neg c3, if_neg c4, if_pos c5,
                  if_pos cb, if_neg cc]
            · right
              rw [decodeRune.eq_def]
              dsimp only
              rw [if_neg c1, if_neg c2, if_neg c3, if_neg c4, if_pos c5, if_neg cb]
    · right
      rw [decodeRune.eq_def]
      dsimp only
      rw [if_neg c1, if_neg c2, if_neg c3, if_neg c4, if_neg c5]

example : decodeRune [0x61] = (0x61, 1) := by decide
example : decodeRune [0xC3, 0xA9] = (0xE9, 2) := by decide
example : decodeRune [0xE2, 0x82, 0xAC] = (0x20AC, 3) := by decide
example : decodeRune [0xF0, 0x9F, 0x98, 0x80] = (0x1F600, 4) := by decide
example : decodeRune [0xFF] = (0xFFFD, 1) := by decide
example : decodeRune [0x80] = (0xFFFD, 1) := by decide
example : decodeRune [0xC3] = (0xFFFD, 1) := by decide
example : decodeRune [0xED, 0xA0, 0x80] = (0xFFFD, 1) := by decide
example : decodeRune [0xC0, 0x80] = (0xFFFD, 1) := by decide
example : utf8encode 0x20AC = [0xE2, 0x82, 0xAC] := by decide
example : runeLen 0xFFFD = 3 := by decide

/-- Helper for `runesOf`: structural recursion on fuel, which always
suffices when the fuel is at least the byte length (each step consumes at
least one byte). -/
def runesOfAux : Nat → List Nat → List Int
  | _, [] => []
  | 0, _ :: _ => []
  | fuel + 1, b :: rest =>
    (decodeRune (b :: rest)).1 :: runesOfAux fuel (rest.drop ((decodeRune (b :: rest)).2 - 1))

/-- Decode a byte sequence into its sequence of runes, advancing by the
decoded width each time, exactly as Go's `range` over a string (and hence
`strings.ContainsRune`) does. -/
def runesOf (bs : List Nat) : List Int :=
  runesOfAux bs.length bs

/-- Embedding of Go `strings.ContainsRune`. -/
def containsRune (chars : List Nat) (r : Int) : Bool :=
  (runesOf chars).contains r

/-- Embedding of Go `clamp` from sourcetext.go (note the `0` result when
`lo > hi`). -/
def goClamp (num lo hi : Int) : Int :=
  if lo > hi then 0
  else if num < lo then lo
  else if num > hi then hi
  else num

/-- Embedding of Go `strings.LastIndex(s, "\n")`: byte index of the last
newline, `-1` if there is none. -/
def lastIndexNl : List Nat → Int
  | [] => -1
  | b :: bs =>
    let r := lastIndexNl bs
    if r ≥ 0 then r + 1 else if b = 10 then 0 else -1

/-- Embedding of Go `strings.Split(s, "\n")`. -/
def splitNl : List Nat → List (List Nat)
  | [] => [[]]
  | b :: bs =>
    match splitNl bs with
    | [] => [[]]
    | h :: t => if b = 10 then [] :: h :: t else (b :: h) :: t

/-- Helper for `natDigits`: structural recursion on fuel (the number of
digits is at most the fuel whenever fuel ≥ n + 1). -/
def natDigitsAux : Nat → Nat → List Nat
  | 0, n => [48 + n % 10]
  | fuel + 1, n =>
    if n < 10 then [48 + n]
    else natDigitsAux fuel (n / 10) ++ [48 + n % 10]

/-- Decimal digits (ASCII codes) of a natural number, as Go `%d` prints it. -/
def natDigits (n : Nat) : List Nat := natDigitsAux n n

/-- Go `%d` on an int. -/
def intDigits (i : Int) : List Nat :=
  if i < 0 then 45 :: natDigits (-i).toNat else natDigits i.toNat

/-- Go `%4d`: right-aligned in a field of width 4, space padded. -/
def pad4 (i : Int) : List Nat :=
  List.replicate (4 - (intDigits i).length) 32 ++ intDigits i

/-- Byte list of an ASCII string literal (all our literals are ASCII, where
the UTF-8 bytes coincide with the code points). -/
def asciiOf (s : String) : List Nat := s.data.map Char.toNat

example : splitNl (asciiOf "a\nb") = [asciiOf "a", asciiOf "b"] := by decide
example : lastIndexNl (asciiOf "a\nb") = 1 := by decide
example : natDigits 107 = [49, 48, 55] := by decide
example : pad4 7 = [32, 32, 32, 55] := by decide

/-- Embedding of the `sourcetext` struct from sourcetext.go.  `pos` and
`start` are Go `int`s, modelled as `Int` so that underflow is observable. -/
structure Sourcetext where
  source : List Nat
  pos : Int
  start : Int
deriving DecidableEq

/-- `newSourceText` from sourcetext.go. -/
def newSourceText (s : List Nat) : Sourcetext := ⟨s, 0, 0⟩

/-- `sourcetext.fromHere`: `s.source[s.pos:]`.  Faithful for
`0 ≤ pos ≤ len` (outside that range Go panics on the slice). -/
def Sourcetext.fromHere (s : Sourcetext) : List Nat := s.source.drop s.pos.toNat

/-- `sourcetext.untilHere`: `s.source[:s.pos]`. -/
def Sourcetext.untilHere (s : Sourcetext) : List Nat := s.source.take s.pos.toNat

/-- `sourcetext.len`. -/
def Sourcetext.len (s : Sourcetext) : Int := s.source.length

/-- `sourcetext.advance`. -/
def Sourcetext.advance (s : Sourcetext) (n : Int) : Sourcetext := { s with pos := s.pos + n }

/-- `sourcetext.update`: `s.start = s.pos`. -/
def Sourcetext.update (s : Sourcetext) : Sourcetext := { s with start := s.pos }

/-- `sourcetext.current`: `s.source[s.start:s.pos]`. -/
def Sourcetext.current (s : Sourcetext) : List Nat :=
  (s.source.take s.pos.toNat).drop s.start.toNat

/-- `sourcetext.rewind`: subtract `utf8.RuneLen(r)` from `pos`; if `pos`
fell below `start`, call `update` (which moves START down to the new
`pos`, not `pos` up to `start`). -/
def Sourcetext.rewind (s : Sourcetext) (r : Int) : Sourcetext :=
  let s2 := { s with pos := s.pos - runeLen r }
  if s2.pos < s2.start then s2.update else s2

/-- `sourcetext.getPos` from sourcetext.go: 1-based line, and position in
line computed from a clamped last-newline index. -/
def Sourcetext.getPos (s : Sourcetext) : Int × Int :=
  let untilNow := s.untilHere
  let linenum : Int := (untilNow.count 10 : Int) + 1
  let lastNewLineIndex := goClamp (lastIndexNl untilNow) 0 s.pos
  (linenum, s.pos - lastNewLineIndex)

/-- The older `getPos` from lexer.go (module-level `getPos(l *L)`): same
line count, but the last-newline index is used unclamped (`-1` when the
current line is the first), so the column is one larger on the first
line. -/
def getPosOld (source : List Nat) (position : Int) : Int × Int :=
  let untilNow := source.take position.toNat
  ((untilNow.count 10 : Int) + 1, position - lastIndexNl untilNow)

/-- `sourcetext.getContext`: up to three lines before and after line `l`
(0-based), via Go's `clamp`.  Returns
`(before, line, after, beforeStart, afterStart)`. -/
def Sourcetext.getContext (s : Sourcetext) (l : Int) :
    List (List Nat) × List Nat × List (List Nat) × Int × Int :=
  let lines := splitNl s.source
  let n : Int := lines.length
  let beforeStart := goClamp (l - 3) 0 n
  let beforeEnd := goClamp l beforeStart l
  let afterStart := goClamp (l + 1) 0 n
  let afterEnd := goClamp (l + 4) afterStart n
  let before := if l = beforeStart then [] else (lines.take beforeEnd.toNat).drop beforeStart.toNat
  let after := if l = afterEnd then [] else (lines.take afterEnd.toNat).drop afterStart.toNat
  (before, lines.getD l.toNat [], after, beforeStart, afterStart)

/-- Embedding of the `L` struct from lexer.go: the sourcetext cursor, the
rewind stack, and the token channel modelled as the list of tokens sent so
far (a token is a `(type, value)` pair). -/
structure L where
  source : Sourcetext
  rewind : List Int
  tokens : List (Int × List Nat)
deriving DecidableEq

/-- `New` from lexer.go (the parts of the struct the cursor claims use). -/
def lexerNew (src : List Nat) : L := ⟨newSourceText src, [], []⟩

/-- Modelled from the spec: the runeStack implementation file is not under
src/ (only its callers are).  Spec §4.2: `pop()` removes and returns the
most-recent entry or a none sentinel if empty.  `L.Rewind` guards the
popped value with `r > EOFRune`, and `Next` pushes `EOFRune` itself at end
of input, so the none sentinel is `EOFRune`. -/
def runePop (st : List Int) : Int × List Int :=
  match st with
  | [] => (EOFRune, [])
  | r :: t => (r, t)

/-- `L.Next` from lexer.go: decode one rune at `pos` (EOF sentinel with
width 0 on empty rest), advance by the decoded width, push the rune. -/
def L.Next (l : L) : Int × L :=
  let str := l.source.fromHere
  let rs : Int × Nat := if str = [] then (EOFRune, 0) else decodeRune str
  (rs.1, { l with source := l.source.advance (rs.2 : Int), rewind := rs.1 :: l.rewind })

/-- `L.Rewind` from lexer.go: pop; if the popped value is a real rune
(`> EOFRune`), retract the sourcetext by its width. -/
def L.Rewind (l : L) : L :=
  let p := runePop l.rewind
  let l2 : L := { l with rewind := p.2 }
  if p.1 > EOFRune then { l2 with source := l2.source.rewind p.1 } else l2

/-- `L.Peek`: `Next` immediately followed by `Rewind`. -/
def L.Peek (l : L) : Int × L :=
  let p := l.Next
  (p.1, p.2.Rewind)

/-- `L.Ignore`: clear the rewind stack, then commit (`start = pos`). -/
def L.Ignore (l : L) : L := { l with rewind := [], source := l.source.update }

/-- `L.Current`. -/
def L.Current (l : L) : List Nat := l.source.current

/-- `L.Emit`: send `(t, Current)` to the channel, then commit and clear. -/
def L.Emit (l : L) (t : Int) : L :=
  { l with tokens := l.tokens ++ [(t, l.Current)], source := l.source.update, rewind := [] }

/-- The loop of `L.Take`, with explicit fuel (the Go loop's iteration
count is bounded by the remaining input, see `takeLoop_isSome`). -/
def takeLoop (chars : List Nat) : Nat → Int → L → Option L
  | 0, _, _ => none
  | fuel + 1, r, l =>
    if containsRune chars r then
      let p := l.Next
      takeLoop chars fuel p.1 p.2
    else some l.Rewind

/-- `L.Take`: `r := Next(); while ContainsRune(chars, r) { r = Next() };
Rewind()`. -/
def L.Take (l : L) (chars : List Nat) : Option L :=
  let p := l.Next
  takeLoop chars (l.source.source.length + 2) p.1 p.2

/-- `L.Accept`: `strings.HasPrefix(source[position:], chars)`; no cursor
mutation. -/
def L.Accept (l : L) (chars : List Nat) : Bool :=
  decide (l.source.fromHere.take chars.length = chars)

/-- `L.CanTake`: whether `Peek()` is in `chars` (the `Peek` also yields the
post-`Peek` state, which Go mutates in place). -/
def L.CanTake (l : L) (chars : List Nat) : Bool × L :=
  let p := l.Peek
  (containsRune chars p.1, p.2)

/-- Outcome of `L.Error`: either the handler path (recorded formatted
error plus the raw message passed to the hook) or the `panic` path. -/
inductive ErrorOutcome where
  | handled (recorded : List Nat) (hookArg : List Nat)
  | fatal (msg : List Nat)
deriving DecidableEq

/-- The formatted message `fmt.Errorf("lexer (pos=%d,%d): %v", ...)`. -/
def errorMessage (linenum posInLine : Int) (e : List Nat) : List Nat :=
  asciiOf "lexer (pos=" ++ intDigits linenum ++ [44] ++ intDigits posInLine ++
    asciiOf "): " ++ e

/-- `L.Error` from lexer.go: with a handler, record the formatted message
(current line/column included) and call the handler with the raw message;
without one, `panic(e)`. -/
def L.Error (l : L) (hasHandler : Bool) (e : List Nat) : ErrorOutcome :=
  if hasHandler then
    ErrorOutcome.handled (errorMessage (l.source.getPos).1 (l.source.getPos).2 e) e
  else ErrorOutcome.fatal e

/-- One rendered context line `fmt.Sprintf("lexer: %4d: %s\n", i, t)`. -/
def fmtLine (i : Int) (t : List Nat) : List Nat :=
  asciiOf "lexer: " ++ pad4 i ++ asciiOf ": " ++ t ++ [10]

/-- The render loop over context lines with a running line number. -/
def renderLines (i : Int) : List (List Nat) → List Nat
  | [] => []
  | t :: ts => fmtLine i t ++ renderLines (i + 1) ts

/-- `L.PrettyError` from lexer.go: before-context, the current line, the
caret line `lexer:     :<spaces>^ <msg>`, after-context; every line ends
with a newline. -/
def L.PrettyError (l : L) (e : List Nat) : List Nat :=
  let lp := l.source.getPos
  match l.source.getContext (lp.1 - 1) with
  | (before, linetext, after, beforeStart, afterStart) =>
    (if before.isEmpty then [] else renderLines (beforeStart + 1) before) ++
    fmtLine lp.1 linetext ++
    (asciiOf "lexer:     :" ++ List.replicate lp.2.toNat 32 ++ [94, 32] ++ e ++ [10]) ++
    (if after.isEmpty then [] else renderLines (afterStart + 1) after)

example :
    let l := lexerNew (asciiOf "123")
    (l.Next).1 = 49 ∧ (l.Next).2.Current = asciiOf "1" ∧
    ((l.Next).2.Next).2.Current = asciiOf "12" ∧
    (((l.Next).2.Next).2.Next).2.Current = asciiOf "123" ∧
    ((((l.Next).2.Next).2.Next).2.Next).1 = EOFRune := by decide

example :
    let l := lexerNew (asciiOf "1")
    ((l.Next).2.Rewind).Current = [] ∧ (l.Next).2.Current = asciiOf "1" := by decide

example :
    (lexerNew (asciiOf "123.x")).Take (asciiOf "0123456789") =
      some { source := ⟨asciiOf "123.x", 3, 0⟩, rewind := [51, 50, 49], tokens := [] } := by
  decide

example :
    ((lexerNew (asciiOf "ab")).Peek).1 = 97 ∧
    ((lexerNew (asciiOf "ab")).Peek).2.source.pos = 0 := by decide

example : (lexerNew (asciiOf "123.x")).Accept (asciiOf "123") = true := by decide
example : (lexerNew (asciiOf "123.x")).Accept (asciiOf "124") = false := by decide

/-- Claim C1 (code bug evidence): on the reachable cursor state with
`start = 0 ≤ position = 1` and `RuneError` on the rewind stack (produced
by `Next` on the one-byte source `0xFF`), the retract step of `Rewind`
subtracts `RuneError`'s 3-byte width without the claimed clamp: `position`
becomes `-2`, which precedes the old `start = 0`, and `start` is NOT left
unchanged — `sourcetext.rewind` calls `update()`, sliding `start` down to
`-2`.  The claim (and the older lexer.go `Rewind`, and the doc comment
"you can never rewind past the last point a token was emitted") say
`position` should have been clamped to `start = 0` with `start`
untouched. -/
theorem C1_rewind_slides_start_trace :
    ((lexerNew [0xFF]).Next).2.source.start = 0 ∧
    ((lexerNew [0xFF]).Next).2.source.pos = 1 ∧
    ((lexerNew [0xFF]).Next).2.rewind = [RuneError] ∧
    (((lexerNew [0xFF]).Next).2.Rewind).source.pos = -2 ∧
    (((lexerNew [0xFF]).Next).2.Rewind).source.start = -2 := by decide

/-- Claim C2 (code bug evidence): the cursor invariant
`0 ≤ start ≤ position ≤ len(source)` is violated after the operation
sequence `Next; Rewind` from the initial state on the one-byte source
`0x80`: both `start` and `position` end at `-2 < 0` (a subsequent `Next`
would panic in Go on the slice `source[-2:]`). -/
theorem C2_invariant_violated_trace :
    (((lexerNew [0x80]).Next).2.Rewind).source.start = -2 ∧
    (((lexerNew [0x80]).Next).2.Rewind).source.pos = -2 ∧
    ¬(0 ≤ (((lexerNew [0x80]).Next).2.Rewind).source.start) := by decide

/-- Claim C3 (code bug evidence): lexing `"1"` with a whitespace-expecting
rule reads the digit via `Next` (returning `'1'` = 49, position 1) and
calls `Error`.  `sourcetext.getPos` (used by `L.Error` in the current
lexer.go) returns `(1, 1)` — the clamped last-newline index makes the
first-line column equal the 0-based offset — so the recorded error is
`lexer (pos=1,1): unexpected token '1'`, whereas the claim, the repo's own
test `Test_LexerError`, and the older lexer.go `getPos` (which yields
`(1, 2)` here) all say line 1, column 2. -/
theorem C3_first_line_column_trace :
    ((lexerNew (asciiOf "1")).Next).1 = 49 ∧
    ((lexerNew (asciiOf "1")).Next).2.source.getPos = (1, 1) ∧
    getPosOld (asciiOf "1") 1 = (1, 2) ∧
    ((lexerNew (asciiOf "1")).Next).2.Error true
        (asciiOf "unexpected token " ++ [39, 49, 39]) =
      ErrorOutcome.handled
        (asciiOf "lexer (pos=1,1): unexpected token " ++ [39, 49, 39])
        (asciiOf "unexpected token " ++ [39, 49, 39]) := by decide

/-- Iterated `Next`, discarding the returned runes. -/
def nextN : Nat → L → L
  | 0, l => l
  | k + 1, l => nextN k (l.Next).2

/-- Iterated `Rewind`: `rewindN (k+1) l` performs `k` rewinds and then one
more. -/
def rewindN : Nat → L → L
  | 0, l => l
  | k + 1, l => (rewindN k l).Rewind

lemma next_source_start (l : L) :
    (l.Next).2.source.source = l.source.source ∧
    (l.Next).2.source.start = l.source.start ∧
    (l.Next).2.tokens = l.tokens := by
  unfold L.Next Sourcetext.advance
  constructor
  · rfl
  constructor
  · rfl
  · rfl

lemma next_at_eof (l : L) (h : l.source.fromHere = []) :
    (l.Next).1 = EOFRune ∧ (l.Next).2.source.pos = l.source.pos := by
  refine ⟨?_, ?_⟩ <;> simp [L.Next, Sourcetext.advance, h]

lemma nextN_succ (k : Nat) (l : L) : nextN (k + 1) l = ((nextN k l).Next).2 := by
  induction k generalizing l with
  | zero => rfl
  | succ k ih =>
    show nextN (k + 1) (l.Next).2 = ((nextN (k + 1) l).Next).2
    rw [ih ((l.Next).2)]
    rfl

lemma nextN_source (k : Nat) (l : L) : (nextN k l).source.source = l.source.source := by
  induction k generalizing l with
  | zero => rfl
  | succ k ih =>
    show (nextN k (l.Next).2).source.source = l.source.source
    rw [ih ((l.Next).2), (next_source_start l).1]

/-- Claim C6: `Next` never fails: once `position = len(source)`, `Next`
returns the `EOFRune` sentinel (distinct from every valid codepoint, being
negative) with zero advance, and arbitrarily many repeated calls keep
returning the sentinel with `position` unchanged. -/
theorem C6_next_eof (l : L) (h : l.source.pos = (l.source.source.length : Int)) :
    (l.Next).1 = EOFRune ∧ (l.Next).2.source.pos = l.source.pos ∧
    EOFRune < 0 ∧ (∀ n : Nat, isScalar n → EOFRune ≠ (n : Int)) ∧
    (∀ k : Nat, (nextN k l).source.pos = l.source.pos ∧
      ((nextN k l).Next).1 = EOFRune) := by
  have hFH : ∀ m : L, m.source.pos = (m.source.source.length : Int) →
      m.source.fromHere = [] := by
    intro m hm
    unfold Sourcetext.fromHere
    apply List.drop_eq_nil_of_le
    omega
  have h0 := next_at_eof l (hFH l h)
  refine ⟨h0.1, h0.2, by norm_num [EOFRune], ?_, ?_⟩
  · intro n _
    have : (0 : Int) ≤ (n : Int) := Int.natCast_nonneg n
    unfold EOFRune
    omega
  · intro k
    induction k with
    | zero => exact ⟨rfl, h0.1⟩
    | succ k ih =>
      rw [nextN_succ]
      have hk : (nextN k l).source.pos = ((nextN k l).source.source.length : Int) := by
        rw [ih.1, nextN_source k l]
        exact h
      have hstep := next_at_eof (nextN k l) (hFH _ hk)
      refine ⟨hstep.2.trans ih.1, ?_⟩
      apply (next_at_eof _ (hFH _ ?_)).1
      rw [hstep.2, ih.1, (next_source_start (nextN k l)).1, nextN_source k l]
      exact h

theorem C6_witness :
    ((lexerNew [49]).Next).2.source.pos =
      (((lexerNew [49]).Next).2.source.source.length : Int) ∧
    ((((lexerNew [49]).Next).2.Next).1 = EOFRune) :=
  ⟨by decide, (C6_next_eof (((lexerNew [49]).Next).2) (by decide)).1⟩

lemma intDigits_length_pos (i : Int) : 1 ≤ (intDigits i).length := by
  have aux : ∀ fuel n : Nat, 1 ≤ (natDigitsAux fuel n).length := by
    intro fuel n
    cases fuel with
    | zero => simp [natDigitsAux]
    | succ fuel =>
      unfold natDigitsAux
      split_ifs <;> simp
  unfold intDigits natDigits
  split_ifs <;> simp [aux]

/-- Claim C8: with a registered hook, `Error(msg)` records the formatted
message (strictly longer than `msg`: it embeds the `lexer (pos=line,col):`
prefix computed from the current `getPos`) as the terminal error and
passes the raw, unformatted `msg` to the hook; without a hook it panics
(aborts the process). -/
theorem C8_error_paths (l : L) (e : List Nat) :
    l.Error true e =
      ErrorOutcome.handled (errorMessage (l.source.getPos).1 (l.source.getPos).2 e) e ∧
    l.Error false e = ErrorOutcome.fatal e ∧
    e.length < (errorMessage (l.source.getPos).1 (l.source.getPos).2 e).length := by
  refine ⟨rfl, rfl, ?_⟩
  unfold errorMessage
  simp only [List.length_append, List.length_cons, List.length_nil]
  have h1 : (asciiOf "lexer (pos=").length = 11 := by decide
  have h2 : (asciiOf "): ").length = 3 := by decide
  omega

/-- Claim C9: `Rewind` immediately after `Emit` or `Ignore` is a complete
no-op: the commit leaves the rewind stack empty, and rewinding with an
empty stack changes nothing — `start`, `position`, the stack and the
emitted tokens are all untouched. -/
theorem C9_rewind_noop_after_commit (l : L) (t : Int) :
    (l.Ignore).Rewind = l.Ignore ∧ (l.Emit t).Rewind = l.Emit t ∧
    (l.Ignore).rewind = [] ∧ (l.Emit t).rewind = [] :=
  ⟨rfl, rfl, rfl, rfl⟩

/-- Claim C10: whenever the unread input is nonempty but does not begin
with a well-formed UTF-8 encoding, `Next` returns `RuneError` (U+FFFD)
advancing `position` by exactly 1 byte, while the `Rewind` that pops it
retracts by `utf8.RuneLen(U+FFFD) = 3` bytes — a 2-byte net move
backwards. -/
theorem C10_invalid_head (l : L) (h1 : l.source.fromHere ≠ [])
    (h2 : ¬ headEnc l.source.fromHere) :
    (l.Next).1 = RuneError ∧ RuneError = 0xFFFD ∧
    (l.Next).2.source.pos = l.source.pos + 1 ∧
    runeLen RuneError = 3 ∧
    ((l.Next).2.Rewind).source.pos = l.source.pos + 1 - 3 := by
  have hd : decodeRune l.source.fromHere = (RuneError, 1) :=
    (decode_classify _ h1).resolve_left h2
  have hN1 : (l.Next).1 = RuneError := by
    simp [L.Next, if_neg h1, hd]
  have hN2 : (l.Next).2 =
      { l with source := l.source.advance 1, rewind := RuneError :: l.rewind } := by
    simp [L.Next, if_neg h1, hd]
  refine ⟨hN1, rfl, ?_, by decide, ?_⟩
  · rw [hN2]
    simp [Sourcetext.advance]
  · rw [hN2]
    unfold L.Rewind runePop
    dsimp only
    rw [if_pos (by decide : RuneError > EOFRune)]
    unfold Sourcetext.rewind Sourcetext.update Sourcetext.advance
    have h3 : runeLen RuneError = 3 := by decide
    dsimp only
    rw [h3]
    split_ifs <;> rfl

theorem C10_witness :
    ((lexerNew [0xFF]).Next).1 = RuneError ∧
    ((lexerNew [0xFF]).Next).2.source.pos = (lexerNew [0xFF]).source.pos + 1 ∧
    (((lexerNew [0xFF]).Next).2.Rewind).source.pos =
      (lexerNew [0xFF]).source.pos + 1 - 3 := by
  have h1 : (lexerNew [0xFF]).source.fromHere ≠ [] := by decide
  have h2 : ¬ headEnc (lexerNew [0xFF]).source.fromHere := by
    intro hcon
    obtain ⟨n, rest, hs, he⟩ := hcon
    obtain ⟨b, t, henc, hlt⟩ := utf8encode_head_lt n hs
    rw [henc] at he
    have hfh : (lexerNew [0xFF]).source.fromHere = [0xFF] := by decide
    rw [hfh] at he
    simp only [List.cons_append] at he
    injection he with hb _
    omega
  have hmain := C10_invalid_head (lexerNew [0xFF]) h1 h2
  exact ⟨hmain.1, hmain.2.2.1, hmain.2.2.2.2⟩

/-- The unread input is empty (EOF) or begins with a well-formed UTF-8
encoding, i.e. the next `Next` will decode "cleanly". -/
def headWF (l : L) : Prop := l.source.fromHere = [] ∨ headEnc l.source.fromHere

/-- The next `n` calls to `Next` all decode cleanly. -/
def wfChain : Nat → L → Prop
  | 0, _ => True
  | k + 1, l => headWF l ∧ wfChain k (l.Next).2

lemma next_on_nil (l : L) (hF : l.source.fromHere = []) :
    (l.Next).1 = EOFRune ∧
    (l.Next).2 = { l with source := l.source.advance 0, rewind := EOFRune :: l.rewind } := by
  refine ⟨(next_at_eof l hF).1, ?_⟩
  simp [L.Next, hF, Sourcetext.advance]

lemma sourcetextExt (a b : Sourcetext) (h1 : a.source = b.source)
    (h2 : a.pos = b.pos) (h3 : a.start = b.start) : a = b := by
  cases a
  cases b
  cases h1
  cases h2
  cases h3
  rfl

lemma lexStateExt (a b : L) (h1 : a.source = b.source) (h2 : a.rewind = b.rewind)
    (h3 : a.tokens = b.tokens) : a = b := by
  cases a
  cases b
  cases h1
  cases h2
  cases h3
  rfl

lemma next_on_enc (l : L) (n : Nat) (tail : List Nat) (hs : isScalar n)
    (he : l.source.fromHere = utf8encode n ++ tail) :
    (l.Next).1 = (n : Int) ∧
    (l.Next).2.source.pos = l.source.pos + ((utf8encode n).length : Int) ∧
    (l.Next).2.rewind = (n : Int) :: l.rewind := by
  have hne : l.source.fromHere ≠ [] := by
    rw [he]
    intro hc
    have h1 := utf8encode_length_pos n
    have h2 := congrArg List.length hc
    simp only [List.length_append, List.length_nil] at h2
    omega
  have hd : decodeRune l.source.fromHere = ((n : Int), (utf8encode n).length) := by
    rw [he]
    exact decode_encode n hs tail
  exact ⟨by simp [L.Next, if_neg hne, hd],
    by simp [L.Next, Sourcetext.advance, if_neg hne, hd],
    by simp [L.Next, if_neg hne, hd]⟩

lemma next_on_enc_fromHere (l : L) (n : Nat) (tail : List Nat) (hs : isScalar n)
    (hp : 0 ≤ l.source.pos)
    (he : l.source.fromHere = utf8encode n ++ tail) :
    (l.Next).2.source.fromHere = tail := by
  have hpos := (next_on_enc l n tail hs he).2.1
  unfold Sourcetext.fromHere at he ⊢
  rw [hpos, (next_source_start l).1]
  have ht : (l.source.pos + ((utf8encode n).length : Int)).toNat =
      l.source.pos.toNat + (utf8encode n).length := by omega
  rw [ht, ← List.drop_drop, he, List.drop_left]

lemma rewind_on_eof (l : L) (st : List Int) (hst : l.rewind = EOFRune :: st) :
    l.Rewind = { l with rewind := st } := by
  unfold L.Rewind runePop
  rw [hst]
  rfl

lemma rewind_on_rune (l : L) (n : Nat) (st : List Int) (hs : isScalar n)
    (hst : l.rewind = (n : Int) :: st)
    (hge : l.source.start ≤ l.source.pos - ((utf8encode n).length : Int)) :
    l.Rewind = { l with
      source := { l.source with pos := l.source.pos - ((utf8encode n).length : Int) },
      rewind := st } := by
  unfold L.Rewind runePop
  rw [hst]
  dsimp only
  rw [if_pos (show (n : Int) > EOFRune by
    have := Int.natCast_nonneg n
    unfold EOFRune
    omega)]
  unfold Sourcetext.rewind Sourcetext.update
  dsimp only
  rw [runeLen_encode n hs]
  rw [if_neg (by omega)]

/-- `Next` then `Rewind` is the identity on states whose head is
well-formed (or EOF) and whose `start` is below `position`. -/
lemma next_rewind_id (l : L) (h1 : l.source.start ≤ l.source.pos) (h2 : headWF l) :
    ((l.Next).2).Rewind = l := by
  rcases h2 with hF | ⟨n, tail, hs, he⟩
  · rw [(next_on_nil l hF).2]
    rw [rewind_on_eof _ l.rewind rfl]
    show ({ l with source := l.source.advance 0 } : L) = l
    apply lexStateExt
    · apply sourcetextExt
      · rfl
      · show l.source.pos + 0 = l.source.pos
        omega
      · rfl
    · rfl
    · rfl
  · obtain ⟨hr, hpos, hst⟩ := next_on_enc l n tail hs he
    rw [rewind_on_rune ((l.Next).2) n l.rewind hs hst (by
      rw [hpos, (next_source_start l).2.1]
      omega)]
    apply lexStateExt
    · apply sourcetextExt
      · exact (next_source_start l).1
      · show (l.Next).2.source.pos - ((utf8encode n).length : Int) = l.source.pos
        rw [hpos]
        omega
      · exact (next_source_start l).2.1
    · rfl
    · exact (next_source_start l).2.2

lemma next_start_le_pos (l : L) (h : l.source.start ≤ l.source.pos) :
    (l.Next).2.source.start ≤ (l.Next).2.source.pos := by
  by_cases hF : l.source.fromHere = [] <;>
    simp [L.Next, Sourcetext.advance, hF] <;> omega

/-- Claim C4 (counterexample): `Peek` is NOT net-position-neutral on every
cursor state: on the one-byte source `0xFF` (not well-formed UTF-8),
`Peek` from the initial state returns U+FFFD but leaves `position = -2`
and `start = -2`, not the original `0`. -/
theorem C4_peek_counterexample :
    ((lexerNew [0xFF]).Peek).2.source.pos = -2 ∧
    (lexerNew [0xFF]).source.pos = 0 ∧
    ((lexerNew [0xFF]).Peek).2 ≠ lexerNew [0xFF] := by decide

/-- Claim C4 (amended): restricted to steps whose decode is well-formed
(or at EOF) — in particular to any well-formed UTF-8 input — `Peek`
returns `Next`'s rune with the whole state restored, and N `Rewind`s after
N consecutive `Next`s (no intervening commit) fully restore the starting
state, provided `start ≤ position`. -/
theorem C4_peek_rewind_amended :
    (∀ l : L, l.source.start ≤ l.source.pos → headWF l →
      (l.Peek).1 = (l.Next).1 ∧ (l.Peek).2 = l) ∧
    (∀ (l : L) (n : Nat), l.source.start ≤ l.source.pos → wfChain n l →
      rewindN n (nextN n l) = l) := by
  constructor
  · intro l h1 h2
    exact ⟨rfl, next_rewind_id l h1 h2⟩
  · intro l n
    induction n generalizing l with
    | zero => intro _ _; rfl
    | succ n ih =>
      intro h1 h2
      show (rewindN n (nextN (n + 1) l)).Rewind = l
      have e : nextN (n + 1) l = nextN n ((l.Next).2) := rfl
      rw [e, ih ((l.Next).2) (next_start_le_pos l h1) h2.2]
      exact next_rewind_id l h1 h2.1

theorem C4_witness :
    (lexerNew (asciiOf "ab")).source.start ≤ (lexerNew (asciiOf "ab")).source.pos ∧
    ((lexerNew (asciiOf "ab")).Peek).2 = lexerNew (asciiOf "ab") ∧
    rewindN 2 (nextN 2 (lexerNew (asciiOf "ab"))) = lexerNew (asciiOf "ab") := by
  have hwf : headWF (lexerNew (asciiOf "ab")) :=
    Or.inr ⟨97, [98], by decide, by decide⟩
  have hwf2 : headWF (((lexerNew (asciiOf "ab")).Next).2) :=
    Or.inr ⟨98, [], by decide, by decide⟩
  exact ⟨by decide, (C4_peek_rewind_amended.1 _ (by decide) hwf).2,
    C4_peek_rewind_amended.2 _ 2 (by decide) ⟨hwf, hwf2, trivial⟩⟩

lemma decode_fst_nonneg (bs : List Nat) : 0 ≤ (decodeRune bs).1 := by
  have hR : (0 : Int) ≤ RuneError := by decide
  match bs with
  | [] => exact hR
  | [b0] =>
    rw [decodeRune.eq_def]
    dsimp only
    split_ifs <;> first | exact Int.natCast_nonneg _ | exact hR
  | [b0, b1] =>
    rw [decodeRune.eq_def]
    dsimp only
    split_ifs <;> first | exact Int.natCast_nonneg _ | exact hR
  | [b0, b1, b2] =>
    rw [decodeRune.eq_def]
    dsimp only
    split_ifs <;> first | exact Int.natCast_nonneg _ | exact hR
  | b0 :: b1 :: b2 :: b3 :: rest =>
    rw [decodeRune.eq_def]
    dsimp only
    split_ifs <;> first | exact Int.natCast_nonneg _ | exact hR

lemma decode_size_pos (bs : List Nat) (h : bs ≠ []) : 1 ≤ (decodeRune bs).2 := by
  match bs with
  | [b0] =>
    rw [decodeRune.eq_def]
    dsimp only
    split_ifs <;> simp
  | [b0, b1] =>
    rw [decodeRune.eq_def]
    dsimp only
    split_ifs <;> simp
  | [b0, b1, b2] =>
    rw [decodeRune.eq_def]
    dsimp only
    split_ifs <;> simp
  | b0 :: b1 :: b2 :: b3 :: rest =>
    rw [decodeRune.eq_def]
    dsimp only
    split_ifs <;> simp

lemma decode_size_le (bs : List Nat) : (decodeRune bs).2 ≤ bs.length := by
  match bs with
  | [] => simp [decodeRune]
  | [b0] =>
    rw [decodeRune.eq_def]
    dsimp only
    split_ifs <;> simp
  | [b0, b1] =>
    rw [decodeRune.eq_def]
    dsimp only
    split_ifs <;> simp
  | [b0, b1, b2] =>
    rw [decodeRune.eq_def]
    dsimp only
    split_ifs <;> simp
  | b0 :: b1 :: b2 :: b3 :: rest =>
    rw [decodeRune.eq_def]
    dsimp only
    split_ifs <;> simp <;> omega

lemma runesOfAux_nonneg : ∀ (fuel : Nat) (bs : List Nat) (r : Int),
    r ∈ runesOfAux fuel bs → 0 ≤ r := by
  intro fuel
  induction fuel with
  | zero =>
    intro bs r h
    cases bs <;> simp [runesOfAux] at h
  | succ fuel ih =>
    intro bs r h
    cases bs with
    | nil => simp [runesOfAux] at h
    | cons b rest =>
      rw [runesOfAux] at h
      rcases List.mem_cons.mp h with h1 | h2
      · rw [h1]
        exact decode_fst_nonneg _
      · exact ih _ _ h2

lemma containsRune_nonneg (chars : List Nat) (r : Int)
    (h : containsRune chars r = true) : 0 ≤ r := by
  have hm : r ∈ runesOf chars := List.elem_iff.mp h
  exact runesOfAux_nonneg _ _ _ hm

lemma containsRune_EOF (chars : List Nat) : containsRune chars EOFRune = false := by
  cases h : containsRune chars EOFRune with
  | false => rfl
  | true => exact absurd (containsRune_nonneg chars EOFRune h) (by decide)

lemma encList_length_ge (ns : List Nat) : ns.length ≤ (encList ns).length := by
  induction ns with
  | nil => simp [encList]
  | cons n ns ih =>
    simp only [encList, List.length_append, List.length_cons]
    have := utf8encode_length_pos n
    omega

lemma fromHere_congr (a b : Sourcetext) (h1 : a.source = b.source) (h2 : a.pos = b.pos) :
    a.fromHere = b.fromHere := by
  unfold Sourcetext.fromHere
  rw [h1, h2]

lemma next_pos_decode (l : L) (hF : l.source.fromHere ≠ []) :
    (l.Next).2.source.pos = l.source.pos + ((decodeRune l.source.fromHere).2 : Int) := by
  simp [L.Next, Sourcetext.advance, if_neg hF]

lemma fromHere_length (l : L) :
    l.source.fromHere.length = l.source.source.length - l.source.pos.toNat := by
  unfold Sourcetext.fromHere
  simp [List.length_drop]

/-- The `Take` loop always terminates with a result when given fuel at
least the remaining byte count plus two. -/
lemma takeLoop_isSome (chars : List Nat) : ∀ (fuel : Nat) (r : Int) (l : L),
    0 ≤ l.source.pos →
    l.source.source.length - l.source.pos.toNat + 2 ≤ fuel →
    (takeLoop chars fuel r l).isSome := by
  intro fuel
  induction fuel with
  | zero =>
    intro r l h1 h2
    exact absurd h2 (by omega)
  | succ fuel ih =>
    intro r l h1 h2
    rw [takeLoop]
    split_ifs with hc
    · by_cases hF : l.source.fromHere = []
      · obtain ⟨hr1, _⟩ := next_on_nil l hF
        cases fuel with
        | zero =>
          exfalso
          omega
        | succ fuel2 =>
          have hpe := (next_at_eof l hF).2
          rw [takeLoop, hr1, containsRune_EOF]
          simp
      · apply ih
        · rw [next_pos_decode l hF]
          have := Int.natCast_nonneg ((decodeRune l.source.fromHere).2)
          omega
        · have hp := next_pos_decode l hF
          have hsrc := (next_source_start l).1
          have hs1 : 1 ≤ (decodeRune l.source.fromHere).2 := decode_size_pos _ hF
          have hs2 : (decodeRune l.source.fromHere).2 ≤ l.source.fromHere.length :=
            decode_size_le _
          have hfl := fromHere_length l
          rw [hp, hsrc]
          omega
    · simp

/-- Behaviour of the `Take` loop on input that is a sequence of
well-formed encodings: it consumes exactly the maximal leading run of
member runes and leaves the rest unread. -/
lemma takeLoop_spec (chars : List Nat) : ∀ (ns : List Nat) (l : L) (fuel : Nat),
    (∀ n ∈ ns, isScalar n) →
    0 ≤ l.source.start → l.source.start ≤ l.source.pos →
    l.source.fromHere = encList ns →
    ns.length + 1 ≤ fuel →
    ∃ l', takeLoop chars fuel (l.Next).1 (l.Next).2 = some l' ∧
      l'.source.source = l.source.source ∧
      l'.source.start = l.source.start ∧
      l'.tokens = l.tokens ∧
      l'.source.pos = l.source.pos +
        ((encList (ns.takeWhile (fun n => containsRune chars (n : Int)))).length : Int) ∧
      l'.source.fromHere =
        encList (ns.dropWhile (fun n => containsRune chars (n : Int))) := by
  intro ns
  induction ns with
  | nil =>
    intro l fuel hsc h0 h1 he hf
    have hF : l.source.fromHere = [] := by simpa [encList] using he
    obtain ⟨hr1, hl1⟩ := next_on_nil l hF
    have hpe := (next_at_eof l hF).2
    cases fuel with
    | zero => exact absurd hf (by omega)
    | succ fuel =>
      have hrw : ((l.Next).2).Rewind = { (l.Next).2 with rewind := l.rewind } :=
        rewind_on_eof _ _ (by rw [hl1])
      refine ⟨((l.Next).2).Rewind, ?_, ?_, ?_, ?_, ?_, ?_⟩
      · rw [takeLoop, hr1, containsRune_EOF]
        simp
      · rw [hrw]
        exact (next_source_start l).1
      · rw [hrw]
        exact (next_source_start l).2.1
      · rw [hrw]
        exact (next_source_start l).2.2
      · rw [hrw]
        show (l.Next).2.source.pos = _
        rw [hpe]
        simp [encList]
      · rw [hrw]
        show (l.Next).2.source.fromHere = _
        rw [fromHere_congr ((l.Next).2).source l.source (next_source_start l).1 hpe, hF]
        simp [encList]
  | cons n ns ih =>
    intro l fuel hsc h0 h1 he hf
    have hsn : isScalar n := hsc n (by simp)
    have hsns : ∀ m ∈ ns, isScalar m := fun m hm => hsc m (by simp [hm])
    have he' : l.source.fromHere = utf8encode n ++ encList ns := by
      simpa [encList] using he
    obtain ⟨hr1, hpos, hst⟩ := next_on_enc l n (encList ns) hsn he'
    have hfh1 : (l.Next).2.source.fromHere = encList ns :=
      next_on_enc_fromHere l n (encList ns) hsn (by omega) he'
    cases fuel with
    | zero => exact absurd hf (by omega)
    | succ fuel =>
      by_cases hc : containsRune chars (n : Int) = true
      · obtain ⟨l', hl', c1, c2, c3, c4, c5⟩ := ih ((l.Next).2) fuel hsns
          (by rw [(next_source_start l).2.1]; exact h0)
          (next_start_le_pos l h1)
          hfh1
          (by simp at hf; omega)
        refine ⟨l', ?_, ?_, ?_, ?_, ?_, ?_⟩
        · rw [takeLoop, hr1, if_pos hc]
          exact hl'
        · exact c1.trans (next_source_start l).1
        · exact c2.trans (next_source_start l).2.1
        · exact c3.trans (next_source_start l).2.2
        · rw [c4, hpos]
          simp only [List.takeWhile_cons, hc, if_true, encList, List.length_append]
          push_cast
          ring
        · rw [c5]
          simp only [List.dropWhile_cons, hc, if_true]
      · have hrw := rewind_on_rune ((l.Next).2) n l.rewind hsn hst
          (by rw [hpos, (next_source_start l).2.1]; omega)
        refine ⟨((l.Next).2).Rewind, ?_, ?_, ?_, ?_, ?_, ?_⟩
        · rw [takeLoop, hr1, if_neg hc]
        · rw [hrw]
          exact (next_source_start l).1
        · rw [hrw]
          exact (next_source_start l).2.1
        · rw [hrw]
          exact (next_source_start l).2.2
        · rw [hrw]
          show (l.Next).2.source.pos - ((utf8encode n).length : Int) = _
          rw [hpos]
          simp only [List.takeWhile_cons, hc, if_false, encList, List.length_nil]
          omega
        · rw [hrw]
          show Sourcetext.fromHere _ = _
          have hsrcEq : ({ (l.Next).2.source with
              pos := (l.Next).2.source.pos - ((utf8encode n).length : Int) } :
              Sourcetext).fromHere = l.source.fromHere := by
            apply fromHere_congr
            · exact (next_source_start l).1
            · show (l.Next).2.source.pos - ((utf8encode n).length : Int) = l.source.pos
              rw [hpos]
              omega
          rw [hsrcEq, he]
          simp only [List.dropWhile_cons, hc, if_false, encList]

/-- Claim C5 (counterexample): `Take` does NOT always leave the first
non-member rune unread with `position` advanced over exactly the member
run: on the one-byte invalid-UTF-8 source `0xFF` with accept set `"a"`,
the maximal member run is empty and the non-member sits at offset 0, yet
`Take` returns with `position = start = -2`. -/
theorem C5_take_counterexample :
    ((lexerNew [0xFF]).Take [97]).map (fun l => (l.source.pos, l.source.start)) =
      some (-2, -2) ∧
    (lexerNew [0xFF]).source.pos = 0 := by decide

/-- Claim C5 (amended): `Take(set)` always terminates (for any cursor with
`0 ≤ position`); and when the unread input is a sequence of well-formed
encodings (in particular, any well-formed UTF-8 remainder), `Take`
advances `position` over exactly the maximal leading run of member runes,
leaving `start`, the tokens, and the first non-member rune (or EOF)
unread and intact. -/
theorem C5_take_amended :
    (∀ (l : L) (chars : List Nat), 0 ≤ l.source.pos → (l.Take chars).isSome) ∧
    (∀ (l : L) (chars : List Nat) (ns : List Nat),
      (∀ n ∈ ns, isScalar n) → 0 ≤ l.source.start → l.source.start ≤ l.source.pos →
      l.source.fromHere = encList ns →
      ∃ l', l.Take chars = some l' ∧
        l'.source.start = l.source.start ∧
        l'.source.pos = l.source.pos +
          ((encList (ns.takeWhile (fun n => containsRune chars (n : Int)))).length : Int) ∧
        l'.source.fromHere =
          encList (ns.dropWhile (fun n => containsRune chars (n : Int))) ∧
        l'.tokens = l.tokens) := by
  constructor
  · intro l chars hp
    unfold L.Take
    apply takeLoop_isSome
    · by_cases hF : l.source.fromHere = []
      · rw [(next_at_eof l hF).2]
        exact hp
      · rw [next_pos_decode l hF]
        have := Int.natCast_nonneg ((decodeRune l.source.fromHere).2)
        omega
    · rw [(next_source_start l).1]
      omega
  · intro l chars ns hsc h0 h1 he
    have hfuel : ns.length + 1 ≤ l.source.source.length + 2 := by
      have h2 := encList_length_ge ns
      have h3 : l.source.fromHere.length = (encList ns).length := by rw [he]
      have h4 := fromHere_length l
      omega
    obtain ⟨l', hl', c1, c2, c3, c4, c5⟩ := takeLoop_spec chars ns l _ hsc h0 h1 he hfuel
    exact ⟨l', hl', c2, c4, c5, c3⟩

theorem C5_witness :
    ((lexerNew (asciiOf "ab")).Take [97]).isSome ∧
    (∃ l', (lexerNew (asciiOf "ab")).Take [97] = some l' ∧
      l'.source.start = (lexerNew (asciiOf "ab")).source.start ∧
      l'.source.pos = (lexerNew (asciiOf "ab")).source.pos +
        ((encList (([97, 98] : List Nat).takeWhile
          (fun n => containsRune [97] (n : Int)))).length : Int) ∧
      l'.source.fromHere = encList (([97, 98] : List Nat).dropWhile
          (fun n => containsRune [97] (n : Int))) ∧
      l'.tokens = (lexerNew (asciiOf "ab")).tokens) :=
  ⟨C5_take_amended.1 (lexerNew (asciiOf "ab")) [97] (by decide),
   C5_take_amended.2 (lexerNew (asciiOf "ab")) [97] [97, 98]
     (by decide) (by decide) (by decide) (by decide)⟩

/-- Claim C7: `PrettyError` renders up to 3 lines before the current line,
the current line, the caret line, then up to 3 lines after, clipped at the
buffer edges; numbered lines are `lexer: <line padded to 4>: <text>`, the
caret line is `lexer:     :` + column-many spaces + `^ ` + message, and
every rendered line ends in a newline.  First conjunct: on a 10-line
source erroring on line 7 (position at the start of the `~` line, column
1) with the message `Expected Punctuation or Word`, the output is exactly
lines 4-6, line 7, the caret line, then lines 8-10, newline-terminated.
Second conjunct: for every source and in-range 0-based line `l`,
`getContext` returns exactly the lines `max(l-3,0)..l-1` before and
`l+1..min(l+4,len)-1` after — up to three each side, clipped at the
edges. -/
theorem C7_pretty_error :
    (({ source := ⟨asciiOf "a\nb\nc\nd\ne\nf\n~\nh\ni\nj", 12, 12⟩, rewind := [],
        tokens := [] } : L).PrettyError (asciiOf "Expected Punctuation or Word") =
      asciiOf ("lexer:    4: d\nlexer:    5: e\nlexer:    6: f\nlexer:    7: ~\n" ++
        "lexer:     : ^ Expected Punctuation or Word\n" ++
        "lexer:    8: h\nlexer:    9: i\nlexer:   10: j\n")) ∧
    (∀ (s : Sourcetext) (lnat : Nat), lnat < (splitNl s.source).length →
      s.getContext (lnat : Int) =
        (((splitNl s.source).take lnat).drop (lnat - 3),
         (splitNl s.source).getD lnat [],
         ((splitNl s.source).take
           (min (lnat + 4) (splitNl s.source).length)).drop (lnat + 1),
         ((lnat - 3 : Nat) : Int), ((lnat + 1 : Nat) : Int))) := by
  constructor
  · decide
  · intro s lnat hlt
    have hlt' : ((lnat : Int)) < ((splitNl s.source).length : Int) := by exact_mod_cast hlt
    unfold Sourcetext.getContext
    dsimp only
    have hbS : goClamp ((lnat : Int) - 3) 0 ((splitNl s.source).length : Int) =
        ((lnat - 3 : Nat) : Int) := by
      unfold goClamp
      split_ifs <;> omega
    have hbE : goClamp (lnat : Int) (((lnat - 3 : Nat) : Int)) (lnat : Int) =
        (lnat : Int) := by
      unfold goClamp
      split_ifs <;> omega
    have haS : goClamp ((lnat : Int) + 1) 0 ((splitNl s.source).length : Int) =
        ((lnat + 1 : Nat) : Int) := by
      unfold goClamp
      split_ifs <;> omega
    have haE : goClamp ((lnat : Int) + 4) (((lnat + 1 : Nat) : Int))
        ((splitNl s.source).length : Int) =
        ((min (lnat + 4) (splitNl s.source).length : Nat) : Int) := by
      unfold goClamp
      split_ifs <;> omega
    rw [hbS, hbE, haS, haE]
    simp only [Int.toNat_natCast]
    rw [if_neg (show (lnat : Int) ≠
        ((min (lnat + 4) (splitNl s.source).length : Nat) : Int) by push_cast; omega)]
    by_cases hz : (lnat : Int) = ((lnat - 3 : Nat) : Int)
    · rw [if_pos hz]
      have hz' : lnat = lnat - 3 := by exact_mod_cast hz
      have h0 : lnat = 0 := by omega
      subst h0
      simp
    · rw [if_neg hz]

theorem C7_witness :
    (3 : Nat) < (splitNl (asciiOf "x\ny\nz\nw")).length ∧
    (⟨asciiOf "x\ny\nz\nw", 0, 0⟩ : Sourcetext).getContext ((3 : Nat) : Int) =
      (((splitNl (asciiOf "x\ny\nz\nw")).take 3).drop (3 - 3),
       (splitNl (asciiOf "x\ny\nz\nw")).getD 3 [],
       ((splitNl (asciiOf "x\ny\nz\nw")).take
         (min (3 + 4) (splitNl (asciiOf "x\ny\nz\nw")).length)).drop (3 + 1),
       (((3 : Nat) - 3 : Nat) : Int), (((3 : Nat) + 1 : Nat) : Int)) :=
  ⟨by decide, C7_pretty_error.2 ⟨asciiOf "x\ny\nz\nw", 0, 0⟩ 3 (by decide)⟩
